import Mathlib

/-!
Shallow embedding of the blackjack simulator (`blackjack.py` and
`blackjack_sim1.py`): cards, hands and their scoring, the shoe, the payout
rule, the base dealer rule set, strategy observation, and the player
bookkeeping, together with theorems settling the specification claims.

Numeric amounts (bets, payouts, the reshuffle depth threshold) are modelled
as rationals; card scores are natural numbers.  Fallible operations (popping
an empty pool, reading an unset payout, dividing by a zero outlay) return
`Option` or `Except`.  The nondeterministic `random.shuffle` is modelled by
an arbitrary function parameter `σ` on card lists; theorems that depend on it
assume only that it preserves length (every permutation does).
-/

namespace Blackjack

/-- The thirteen card ranks (the keys of `Card._val_map` in the source). -/
inductive Rank where
  | ace | r2 | r3 | r4 | r5 | r6 | r7 | r8 | r9 | r10 | jack | queen | king
  deriving DecidableEq

/-- The four suits (`Card.SUITS`). -/
inductive Suit where
  | spade | heart | diamond | club
  deriving DecidableEq

/-- A playing card: a rank and a suit (`Card.__init__`). -/
structure Card where
  rank : Rank
  suit : Suit
  deriving DecidableEq

/-- `Card._val_map`: the list of values of each rank.  Only the ace has two
values; face cards count ten. -/
def Rank.values : Rank → List Nat
  | .ace => [1, 11]
  | .r2 => [2]
  | .r3 => [3]
  | .r4 => [4]
  | .r5 => [5]
  | .r6 => [6]
  | .r7 => [7]
  | .r8 => [8]
  | .r9 => [9]
  | .r10 => [10]
  | .jack => [10]
  | .queen => [10]
  | .king => [10]

/-- `Card.values`: a card's value list is determined by its rank. -/
def Card.values (c : Card) : List Nat := c.rank.values

/-- The rank part of `Card.card_rep` (the string `self._rank`). -/
def Rank.rank_str : Rank → String
  | .ace => "A"
  | .r2 => "2"
  | .r3 => "3"
  | .r4 => "4"
  | .r5 => "5"
  | .r6 => "6"
  | .r7 => "7"
  | .r8 => "8"
  | .r9 => "9"
  | .r10 => "10"
  | .jack => "J"
  | .queen => "Q"
  | .king => "K"

/-- The suit symbol (the string `self._suit`, one of `Card.SUITS`). -/
def Suit.suit_str : Suit → String
  | .spade => "♠"
  | .heart => "♥"
  | .diamond => "♦"
  | .club => "♣"

/-- `Card.card_rep`: rank string concatenated with the suit symbol. -/
def Card.card_rep (c : Card) : String := c.rank.rank_str ++ c.suit.suit_str

/-- A blackjack hand (`Hand.__init__`): the visible cards `_cards`, the
optional hidden hole card `_hole`, the bet, the optional payout (unset until
the round resolves), and the seat / split identity. -/
structure Hand where
  cards : List Card
  hole : Option Card
  bet : ℚ
  payout : Option ℚ
  seat : Nat
  split : Nat
  deriving DecidableEq

/-- A freshly constructed hand: no cards, no hole card, zero bet, no payout
(`Hand()` with the default arguments). -/
def Hand.empty : Hand := ⟨[], none, 0, none, 0, 0⟩

/-- `itertools.product` over a list of value lists: all ways of choosing one
value per card, as lists of choices. -/
def cartProd : List (List Nat) → List (List Nat)
  | [] => [[]]
  | vs :: rest => vs.flatMap (fun v => (cartProd rest).map (fun t => v :: t))

/-- The raw, possibly duplicated sums of `Hand.scores`: one sum per element
of the Cartesian product of the cards' value lists. -/
def Hand.scoreSums (h : Hand) : List Nat :=
  (cartProd (h.cards.map Card.values)).map List.sum

/-- `Hand.scores`: `sorted(set(sums))` — the sorted duplicate-free list of
all attainable sums of the visible cards, modelled as deduplication followed
by an ascending sort. -/
def Hand.scores (h : Hand) : List Nat :=
  h.scoreSums.dedup.insertionSort (· ≤ ·)

/-- Python's `max` on a list: `none` on an empty list, otherwise the fold of
the binary maximum over the elements. -/
def listMax : List Nat → Option Nat
  | [] => none
  | a :: as => some (as.foldl max a)

/-- Python's `min` on a list: `none` on an empty list, otherwise the fold of
the binary minimum over the elements. -/
def listMin : List Nat → Option Nat
  | [] => none
  | a :: as => some (as.foldl min a)

/-- `Hand.best_score`: `0` when the score list is empty, else the minimum
score when every score exceeds 21, else the maximum score that is at most 21.
The `getD 0` defaults are unreachable: each branch guards nonemptiness. -/
def Hand.best_score (h : Hand) : Nat :=
  if h.scores = [] then 0
  else if h.scores.filter (fun s => decide (s ≤ 21)) = [] then
    (listMin h.scores).getD 0
  else
    (listMax (h.scores.filter (fun s => decide (s ≤ 21)))).getD 0

/-- `Hand.num_cards`: the number of visible cards. -/
def Hand.num_cards (h : Hand) : Nat := h.cards.length

/-- `Hand.is_blackjack`: exactly two visible cards and a best score of 21.
The hole card is not counted. -/
def Hand.is_blackjack (h : Hand) : Bool :=
  h.num_cards == 2 && h.best_score == 21

/-- `Hand.add_card`: append a card to the visible cards, or store it as the
hole card when `ishole` is set. -/
def Hand.add_card (h : Hand) (c : Card) (ishole : Bool) : Hand :=
  if ishole then { h with hole := some c }
  else { h with cards := h.cards ++ [c] }

/-- `Hand.unhole`: move the hole card, if any, to the end of the visible
cards. -/
def Hand.unhole (h : Hand) : Hand :=
  match h.hole with
  | some c => { h with cards := h.cards ++ [c], hole := none }
  | none => h

/-- The comma string used by the `Hand.cards` property. -/
def commaStr : String := ","

/-- The `Hand.cards` *property* of the source (distinct from the `_cards`
list): the comma-joined string of the visible cards' representations. -/
def Hand.cards_join (h : Hand) : String :=
  String.intercalate commaStr (h.cards.map Card.card_rep)

/-- The failure taxonomy: `InvalidMoveError`, `InvalidStateError`, and
Python's `ZeroDivisionError` (the spec's `DivisionUndefined`). -/
inductive Err where
  | invalidMove
  | invalidState
  | divByZero
  deriving DecidableEq

/-- `RuleSet.ValidMoves`: stay (`'S'`) or hit (`'H'`). -/
inductive Move where
  | S
  | H
  deriving DecidableEq

/-- `RuleSet.calculate_payout`.  The bust branch multiplies by the bet, the
push branch yields zero, the winning branch multiplies `1.5` or `1` by the
bet — but the losing branch returns the bare literal `-1`, not
`-1 * player_hand.bet`. -/
def calculate_payout (player_hand dealer_hand : Hand) : ℚ :=
  if player_hand.best_score = 0 then (-1 : ℚ) * player_hand.bet
  else if player_hand.best_score = dealer_hand.best_score then
    (0 : ℚ) * player_hand.bet
  else if dealer_hand.best_score < player_hand.best_score then
    (if player_hand.is_blackjack then (3 / 2 : ℚ) else 1) * player_hand.bet
  else (-1 : ℚ)

/-- The `for score in reversed(scores)` loop of
`RuleSetBase.get_dealer_play`: stay above 16, hit at 16 or below; falling
off the end of the loop raises `InvalidMoveError`. -/
def dealerLoop : List Nat → Except Err Move
  | [] => .error .invalidMove
  | s :: rest =>
    if 16 < s then .ok .S
    else if s ≤ 16 then .ok .H
    else dealerLoop rest

/-- `RuleSetBase.get_dealer_play`: filter the scores to those at most 21;
stay when none remain, otherwise scan them from highest to lowest. -/
def get_dealer_play (hand : Hand) : Except Err Move :=
  let scores := hand.scores.filter (fun s => decide (s ≤ 21))
  if scores.length = 0 then .ok .S
  else dealerLoop scores.reverse

/-- `Strategy.observe`: `for hand in hands: for c in hand.cards: append c`.
`hand.cards` is the comma-joined *string* property, so the iteration yields
its characters; the history is therefore a list of characters. -/
def Strategy.observe (hands : List Hand) (hist : List Char) : List Char :=
  hands.foldl (fun acc h => acc ++ h.cards_join.toList) hist

/-- The dealer's share of `Game._deal`: over the two passes, the first card
is stored as the hole card (`is_holecard = i==0`) and the second is visible. -/
def deal_two_to_dealer (dealer : Hand) (c1 c2 : Card) : Hand :=
  (dealer.add_card c1 true).add_card c2 false

/-- The guard of `Game._play_hands`: the body (players playing through, the
dealer possibly drawing) runs exactly when `dealer.is_blackjack` is false. -/
def play_phase_runs (dealer : Hand) : Bool := !dealer.is_blackjack

/-- The thirteen ranks in the order `_shuffle` builds them. -/
def ranksList : List Rank :=
  [.ace, .r2, .r3, .r4, .r5, .r6, .r7, .r8, .r9, .r10, .jack, .queen, .king]

/-- The four suits in `Card.SUITS` order. -/
def suitsList : List Suit := [.spade, .heart, .diamond, .club]

/-- One 52-card deck: `itertools.product(ranks, suits)`. -/
def oneDeck : List Card :=
  ranksList.flatMap (fun r => suitsList.map (fun s => ⟨r, s⟩))

/-- `Shoe._shuffle`'s unshuffled pool: `num_decks` concatenated decks. -/
def fullDeck (n : Nat) : List Card := (List.replicate n oneDeck).flatten

/-- The shoe (`Shoe.__init__` state): the deck count `_ndecks`, the depth
threshold, the live pool `_cards`, and a ghost counter `nshuffles` recording
how many times `_shuffle` has run (instrumentation only — it lets theorems
say "exactly one reshuffle happened"). -/
structure Shoe where
  ndecks : Nat
  threshold : ℚ
  cards : List Card
  nshuffles : Nat

/-- `Shoe.max_cards`: `num_decks * 52` (`_shoe_size`). -/
def Shoe.max_cards (s : Shoe) : Nat := s.ndecks * 52

/-- `Shoe.num_cards`: cards remaining in the pool. -/
def Shoe.num_cards (s : Shoe) : Nat := s.cards.length

/-- `Shoe.num_dealt`: `max_cards - num_cards`. -/
def Shoe.num_dealt (s : Shoe) : Nat := s.max_cards - s.num_cards

/-- `Shoe._shuffle`: rebuild the full pool from `_ndecks` decks and permute
it with `σ`; the ghost shuffle counter increases by one. -/
def shuffleStep (σ : List Card → List Card) (s : Shoe) : Shoe :=
  { s with cards := σ (fullDeck s.ndecks), nshuffles := s.nshuffles + 1 }

/-- `Shoe.check_reshuffle`: reshuffle when
`num_dealt() / max_cards >= depth_threshold`. -/
def Shoe.check_reshuffle (σ : List Card → List Card) (s : Shoe) : Shoe :=
  if s.threshold ≤ (s.num_dealt : ℚ) / (s.max_cards : ℚ) then shuffleStep σ s
  else s

/-- `list.pop()`: remove and return the last card of the pool; fails on an
empty pool (Python raises `IndexError`). -/
def popCard (s : Shoe) : Option (Card × Shoe) :=
  match s.cards.getLast? with
  | none => none
  | some c => some (c, { s with cards := s.cards.dropLast })

/-- `Shoe.deal_one`: when the pool is empty first run the reshuffle check,
then pop one card. -/
def Shoe.deal_one (σ : List Card → List Card) (s : Shoe) : Option (Card × Shoe) :=
  if s.cards.length = 0 then popCard (s.check_reshuffle σ) else popCard s

/-- A freshly constructed shoe (`Shoe.__init__` after its validation):
`_shuffle` has run exactly once. -/
def Shoe.fresh (σ : List Card → List Card) (n : Nat) (θ : ℚ) : Shoe :=
  ⟨n, θ, σ (fullDeck n), 1⟩

/-- Deal `k` cards in sequence through `Shoe.deal_one`, keeping only the
shoe state; fails if any single deal fails. -/
def dealN (σ : List Card → List Card) (s : Shoe) : Nat → Option Shoe
  | 0 => some s
  | Nat.succ k =>
    match s.deal_one σ with
    | none => none
    | some (_, s2) => dealN σ s2 k

/-- The accumulating loop of `Player.net_round_winnings`: add up the hands'
payouts, failing with `InvalidStateError` at the first unset payout. -/
def net_round_winnings_go (total : ℚ) : List Hand → Except Err ℚ
  | [] => .ok total
  | h :: rest =>
    match h.payout with
    | none => .error .invalidState
    | some p => net_round_winnings_go (total + p) rest

/-- `Player.net_round_winnings`: the loop started at a zero total.  The
source only reads hand state, so it is a pure function of the hand list. -/
def net_round_winnings (hands : List Hand) : Except Err ℚ :=
  net_round_winnings_go 0 hands

/-- `Player.profit_per_dollar`: `balance / outlays`, where Python's division
raises `ZeroDivisionError` when the cumulative outlay is zero. -/
def profit_per_dollar (balance outlays : ℚ) : Except Err ℚ :=
  if outlays = 0 then .error .divByZero else .ok (balance / outlays)

/-- Build a player hand holding the given visible cards and bet (the result
of `Hand((seat, 0), bet)` followed by `add_card` calls). -/
def mkHand (cs : List Card) (b : ℚ) : Hand := ⟨cs, none, b, none, 0, 0⟩

/-- Build a resolved hand whose payout has been assigned. -/
def mkPaidHand (q : ℚ) : Hand := ⟨[], none, 1, some q, 0, 0⟩

/-- The ace of spades. -/
def cardAS : Card := ⟨.ace, .spade⟩

/-- The king of spades. -/
def cardKS : Card := ⟨.king, .spade⟩

/-- The queen of hearts. -/
def cardQH : Card := ⟨.queen, .heart⟩

/-- The ten of spades. -/
def cardTS : Card := ⟨.r10, .spade⟩

/-- The eight of clubs. -/
def card8C : Card := ⟨.r8, .club⟩

/-- The six of diamonds. -/
def card6D : Card := ⟨.r6, .diamond⟩

/-- The six of clubs. -/
def card6C : Card := ⟨.r6, .club⟩

/-- The five of clubs. -/
def card5C : Card := ⟨.r5, .club⟩

/-- A busted player hand: K♠ 6♦ 6♣, only attainable sum 22, bet 5. -/
def bustHand : Hand := mkHand [cardKS, card6D, card6C] 5

/-- A dealer hand standing on 20: K♠ Q♥. -/
def dealer20 : Hand := mkHand [cardKS, cardQH] 0

/-- A player hand standing on 18 with bet 10: 10♠ 8♣. -/
def hand18 : Hand := mkHand [cardTS, card8C] 10

/-- A one-card hand holding only A♠ (its `card_rep` is the two-character
string `A♠`). -/
def handOneCard : Hand := mkHand [cardAS] 0

/-- A busted dealer hand: K♠ Q♥ 5♣, only attainable sum 25. -/
def dealerBust : Hand := mkHand [cardKS, cardQH, card5C] 0

/-- A dealer hand on 16: 10♠ 6♦. -/
def dealer16 : Hand := mkHand [cardTS, card6D] 0

theorem values_ne_nil (r : Rank) : r.values ≠ [] := by
  cases r <;> simp [Rank.values]

/-- Claim C1, evaluated at the failing input: the hand K♠ 6♦ 6♣ is busted
(its only attainable sum is 22, exceeding 21), yet against a dealer 20 the
payout is `+bet` (= 5), not `-bet`: `best_score` of a busted hand is the
minimum sum 22, never 0, so the bust branch of `calculate_payout` does not
fire and 22 > 20 is scored as a win. -/
theorem claim_C1_bust_payout_eval :
    bustHand.scores = [22] ∧ bustHand.bet = 5 ∧ dealer20.best_score = 20 ∧
    bustHand.best_score = 22 ∧ calculate_payout bustHand dealer20 = 5 := by
  have h1 : bustHand.best_score = 22 := by decide
  have h2 : dealer20.best_score = 20 := by decide
  have h3 : bustHand.is_blackjack = false := by decide
  refine ⟨by decide, rfl, h2, h1, ?_⟩
  simp [calculate_payout, h1, h2, h3]
  norm_num [bustHand, mkHand]

/-- Claim C2, evaluated at the failing input: player 10♠ 8♣ (best score 18,
bet 10) against dealer K♠ Q♥ (best score 20) is paid the bare literal `-1`,
not `-bet = -10`: the losing branch of `calculate_payout` skips the
multiplier-times-bet computation used by every other branch. -/
theorem claim_C2_losing_payout_eval :
    hand18.best_score = 18 ∧ hand18.bet = 10 ∧ dealer20.best_score = 20 ∧
    calculate_payout hand18 dealer20 = -1 ∧
    calculate_payout hand18 dealer20 ≠ -hand18.bet := by
  have h1 : hand18.best_score = 18 := by decide
  have h2 : dealer20.best_score = 20 := by decide
  have hp : calculate_payout hand18 dealer20 = -1 := by
    simp [calculate_payout, h1, h2]
  refine ⟨h1, rfl, h2, hp, ?_⟩
  rw [hp]
  norm_num [hand18, mkHand]

/-- Claim C3, evaluated at the failing input: a dealer dealt the hole card
A♠ and the visible card K♠ holds two cards totalling 21 (after revealing the
hole card the hand is a two-card 21), yet `is_blackjack` — which counts only
the visible cards — is false right after dealing, so the guard of
`Game._play_hands` never skips the Play phase. -/
theorem claim_C3_play_skip_eval :
    (deal_two_to_dealer Hand.empty cardAS cardKS).unhole.num_cards = 2 ∧
    (deal_two_to_dealer Hand.empty cardAS cardKS).unhole.best_score = 21 ∧
    (deal_two_to_dealer Hand.empty cardAS cardKS).is_blackjack = false ∧
    play_phase_runs (deal_two_to_dealer Hand.empty cardAS cardKS) = true := by
  refine ⟨by decide, by decide, by decide, by decide⟩

/-- Claim C4, evaluated at the failing input: observing a single hand that
holds the single card A♠ appends the two characters of the string `A♠` to
the history — two entries for one visible card, because `hand.cards` is a
string and iterating it yields characters. -/
theorem claim_C4_observe_eval :
    Strategy.observe [handOneCard] [] = ['A', '♠'] ∧
    (Strategy.observe [handOneCard] []).length = 2 ∧
    ([handOneCard].map Hand.num_cards).sum = 1 := by
  refine ⟨by decide, by decide, by decide⟩

theorem cartProd_exists_mem :
    ∀ ls : List (List Nat), (∀ l ∈ ls, l ≠ []) → ∃ t, t ∈ cartProd ls := by
  intro ls
  induction ls with
  | nil => intro _; exact ⟨[], by simp [cartProd]⟩
  | cons l rest ih =>
    intro hne
    obtain ⟨t, ht⟩ := ih (fun x hx => hne x (List.mem_cons_of_mem _ hx))
    obtain ⟨v, hv⟩ := List.exists_mem_of_ne_nil l (hne l (List.mem_cons_self _ _))
    refine ⟨v :: t, ?_⟩
    simp only [cartProd]
    exact List.mem_flatMap.mpr ⟨v, hv, List.mem_map_of_mem _ ht⟩

theorem scoreSums_exists_mem (h : Hand) : ∃ x, x ∈ h.scoreSums := by
  obtain ⟨t, ht⟩ := cartProd_exists_mem (h.cards.map Card.values) (by
    intro l hl
    obtain ⟨c, _, rfl⟩ := List.mem_map.mp hl
    exact values_ne_nil c.rank)
  exact ⟨t.sum, List.mem_map_of_mem _ ht⟩

theorem scores_ne_nil (h : Hand) : h.scores ≠ [] := by
  obtain ⟨x, hx⟩ := scoreSums_exists_mem h
  have hx2 : x ∈ h.scoreSums.dedup := List.mem_dedup.mpr hx
  have hx3 : x ∈ h.scores :=
    ((List.perm_insertionSort _ _).mem_iff).mpr hx2
  exact List.ne_nil_of_mem hx3

theorem scores_sorted (h : Hand) :
    List.Sorted (fun a b : Nat => a ≤ b) h.scores :=
  List.sorted_insertionSort _ _

/-- Claim C10: a hand holding no visible cards has score list `[0]` (the
empty Cartesian product contributes the empty sum 0), its best score is 0,
and no hand ever has an empty score list. -/
theorem claim_C10_empty_hand_scores (h : Hand) :
    (h.cards = [] → h.scores = [0] ∧ h.best_score = 0) ∧ h.scores ≠ [] := by
  refine ⟨?_, scores_ne_nil h⟩
  intro hc
  have h1 : h.scoreSums = [0] := by
    simp only [Hand.scoreSums, hc]
    rfl
  have hs : h.scores = [0] := by
    simp only [Hand.scores, h1]
    rfl
  refine ⟨hs, ?_⟩
  simp only [Hand.best_score, hs]
  rfl

/-- Witness for claim C10: the freshly constructed empty hand evaluates as
the theorem states. -/
theorem claim_C10_witness :
    Hand.empty.scores = [0] ∧ Hand.empty.best_score = 0 :=
  (claim_C10_empty_hand_scores Hand.empty).1 rfl

theorem listMax_eq_getLast?_of_sorted :
    ∀ l : List Nat, List.Sorted (fun a b : Nat => a ≤ b) l →
      listMax l = l.getLast? := by
  intro l
  induction l with
  | nil => intro _; rfl
  | cons a t ih =>
    intro hs
    cases t with
    | nil => rfl
    | cons b t2 =>
      have h1 := List.sorted_cons.mp hs
      have hab : a ≤ b := h1.1 b (List.mem_cons_self _ _)
      have hmax : listMax (a :: b :: t2) = listMax (b :: t2) := by
        show some (List.foldl max a (b :: t2)) = some (List.foldl max b t2)
        rw [List.foldl_cons, max_eq_right hab]
      rw [hmax, ih h1.2, List.getLast?_cons_cons]

theorem dealerLoop_cons (x : Nat) (rest : List Nat) :
    dealerLoop (x :: rest) =
      if 16 < x then Except.ok Move.S else Except.ok Move.H := by
  by_cases h : 16 < x
  · simp [dealerLoop, h]
  · have hx : x ≤ 16 := Nat.not_lt.mp h
    simp [dealerLoop, h, hx]

/-- Claim C5: `RuleSetBase.get_dealer_play` stays when no attainable score
is at most 21; otherwise it stays exactly when the maximum attainable
score at most 21 exceeds 16 and hits when that maximum is at most 16; and
it never raises `InvalidMove` (it always returns a move). -/
theorem claim_C5_get_dealer_play (hand : Hand) :
    (hand.scores.filter (fun s => decide (s ≤ 21)) = [] →
      get_dealer_play hand = Except.ok Move.S) ∧
    (∀ m, listMax (hand.scores.filter (fun s => decide (s ≤ 21))) = some m →
      (16 < m → get_dealer_play hand = Except.ok Move.S) ∧
      (m ≤ 16 → get_dealer_play hand = Except.ok Move.H)) ∧
    ∃ mv, get_dealer_play hand = Except.ok mv := by
  have hsorted : List.Sorted (fun a b : Nat => a ≤ b)
      (hand.scores.filter (fun s => decide (s ≤ 21))) :=
    List.Pairwise.filter _ (scores_sorted hand)
  have hA : hand.scores.filter (fun s => decide (s ≤ 21)) = [] →
      get_dealer_play hand = Except.ok Move.S := by
    intro hnil
    simp [get_dealer_play, hnil]
  have hB : ∀ m, listMax (hand.scores.filter (fun s => decide (s ≤ 21))) = some m →
      (16 < m → get_dealer_play hand = Except.ok Move.S) ∧
      (m ≤ 16 → get_dealer_play hand = Except.ok Move.H) := by
    intro m hm
    have hne : hand.scores.filter (fun s => decide (s ≤ 21)) ≠ [] := by
      intro h0
      rw [h0] at hm
      exact Option.noConfusion hm
    have hdecomp := List.dropLast_append_getLast hne
    set l := (hand.scores.filter (fun s => decide (s ≤ 21))).dropLast with hl
    set a := (hand.scores.filter (fun s => decide (s ≤ 21))).getLast hne with ha
    have hla : hand.scores.filter (fun s => decide (s ≤ 21)) = l ++ [a] :=
      hdecomp.symm
    have hgl : listMax (hand.scores.filter (fun s => decide (s ≤ 21))) = some a := by
      rw [listMax_eq_getLast?_of_sorted _ hsorted, hla, List.getLast?_concat]
    have ham : a = m := Option.some.inj (hgl.symm.trans hm)
    have hlen : ¬((l ++ [a]).length = 0) := by simp
    have hplay : get_dealer_play hand = dealerLoop ((l ++ [a]).reverse) := by
      simp only [get_dealer_play]
      rw [hla, if_neg hlen]
    have hrev : (l ++ [a]).reverse = a :: l.reverse := by simp
    rw [← ham]
    rw [hplay, hrev, dealerLoop_cons]
    constructor
    · intro h16
      rw [if_pos h16]
    · intro h16
      rw [if_neg (Nat.not_lt.mpr h16)]
  refine ⟨hA, hB, ?_⟩
  by_cases hnil : hand.scores.filter (fun s => decide (s ≤ 21)) = []
  · exact ⟨Move.S, hA hnil⟩
  · obtain ⟨x, xs, hx⟩ := List.exists_cons_of_ne_nil hnil
    have hm : ∃ m, listMax (hand.scores.filter (fun s => decide (s ≤ 21))) = some m := by
      rw [hx]
      exact ⟨_, rfl⟩
    obtain ⟨m, hm⟩ := hm
    by_cases h16 : 16 < m
    · exact ⟨Move.S, (hB m hm).1 h16⟩
    · exact ⟨Move.H, (hB m hm).2 (Nat.not_lt.mp h16)⟩

/-- Witness for claim C5: on the busted dealer hand K♠ Q♥ 5♣ (no attainable
score at most 21) the dealer stays, and on 10♠ 6♦ (maximum attainable score
16) the dealer hits. -/
theorem claim_C5_witness :
    get_dealer_play dealerBust = Except.ok Move.S ∧
    get_dealer_play dealer16 = Except.ok Move.H := by
  constructor
  · exact (claim_C5_get_dealer_play dealerBust).1 (by decide)
  · exact ((claim_C5_get_dealer_play dealer16).2.1 16 (by decide)).2 (by norm_num)

theorem net_go_err :
    ∀ (hands : List Hand) (t : ℚ), (∃ h ∈ hands, h.payout = none) →
      net_round_winnings_go t hands = Except.error Err.invalidState := by
  intro hands
  induction hands with
  | nil =>
    intro t hex
    rcases hex with ⟨x, hx, _⟩
    exact absurd hx (List.not_mem_nil x)
  | cons hd tl ih =>
    intro t hex
    cases hp : hd.payout with
    | none => simp [net_round_winnings_go, hp]
    | some p =>
      rcases hex with ⟨x, hx, hxp⟩
      rcases List.mem_cons.mp hx with h1 | h2
      · rw [h1] at hxp
        rw [hxp] at hp
        exact Option.noConfusion hp
      · simp only [net_round_winnings_go, hp]
        exact ih (t + p) ⟨x, h2, hxp⟩

theorem net_go_ok :
    ∀ (hands : List Hand) (t : ℚ), (∀ h ∈ hands, h.payout.isSome) →
      net_round_winnings_go t hands =
        Except.ok (t + (hands.map (fun h => h.payout.getD 0)).sum) := by
  intro hands
  induction hands with
  | nil => intro t _; simp [net_round_winnings_go]
  | cons hd tl ih =>
    intro t hall
    obtain ⟨p, hp⟩ := Option.isSome_iff_exists.mp (hall hd (List.mem_cons_self _ _))
    have htl : ∀ h ∈ tl, h.payout.isSome :=
      fun h hh => hall h (List.mem_cons_of_mem _ hh)
    simp only [net_round_winnings_go, hp]
    rw [ih (t + p) htl]
    simp [hp, add_assoc]

/-- Claim C8: `Player.net_round_winnings` fails with `InvalidState` when any
hand's payout is unset, and when every payout is set it returns their sum.
The source method only reads hand state, so it is modelled (faithfully) as a
pure function and leaves all state unchanged by construction. -/
theorem claim_C8_net_round_winnings (hands : List Hand) :
    ((∃ h ∈ hands, h.payout = none) →
      net_round_winnings hands = Except.error Err.invalidState) ∧
    ((∀ h ∈ hands, h.payout.isSome) →
      net_round_winnings hands =
        Except.ok ((hands.map (fun h => h.payout.getD 0)).sum)) := by
  constructor
  · intro hex
    exact net_go_err hands 0 hex
  · intro hall
    have h := net_go_ok hands 0 hall
    simpa [net_round_winnings] using h

/-- Witness for claim C8: a single unresolved hand makes the sum fail, and
two resolved hands with payouts 3 and −1 yield 2. -/
theorem claim_C8_witness :
    net_round_winnings [mkHand [] 1] = Except.error Err.invalidState ∧
    net_round_winnings [mkPaidHand 3, mkPaidHand (-1)] = Except.ok 2 := by
  constructor
  · exact (claim_C8_net_round_winnings [mkHand [] 1]).1 ⟨mkHand [] 1, by simp, rfl⟩
  · have h := (claim_C8_net_round_winnings [mkPaidHand 3, mkPaidHand (-1)]).2
      (by
        intro h hh
        simp only [List.mem_cons, List.mem_singleton] at hh
        rcases hh with rfl | rfl | hh
        · rfl
        · rfl
        · exact absurd hh (List.not_mem_nil h))
    rw [h]
    norm_num [mkPaidHand]

/-- Claim C9: `Player.profit_per_dollar` fails exactly when the cumulative
outlay is zero (Python's division raises `ZeroDivisionError`), and otherwise
returns the cumulative net winnings divided by the cumulative outlay. -/
theorem claim_C9_profit_per_dollar (balance outlays : ℚ) :
    (profit_per_dollar balance outlays = Except.error Err.divByZero ↔
      outlays = 0) ∧
    (outlays ≠ 0 →
      profit_per_dollar balance outlays = Except.ok (balance / outlays)) := by
  constructor
  · constructor
    · intro h
      by_contra h0
      simp only [profit_per_dollar, if_neg h0] at h
      exact Except.noConfusion h
    · intro h0
      simp [profit_per_dollar, h0]
  · intro h0
    simp [profit_per_dollar, h0]

/-- Witness for claim C9: with balance 3 and a nonzero outlay 2 the result
is the quotient 3/2. -/
theorem claim_C9_witness : profit_per_dollar 3 2 = Except.ok (3 / 2) :=
  (claim_C9_profit_per_dollar 3 2).2 (by norm_num)

theorem oneDeck_length : oneDeck.length = 52 := by decide

theorem fullDeck_length (n : Nat) : (fullDeck n).length = n * 52 := by
  induction n with
  | zero => rfl
  | succ k ih =>
    have h1 : fullDeck (k + 1) = oneDeck ++ fullDeck k := rfl
    rw [h1, List.length_append, ih, oneDeck_length]
    ring

theorem check_reshuffle_pos (σ : List Card → List Card) (s : Shoe)
    (h : s.threshold ≤ (s.num_dealt : ℚ) / (s.max_cards : ℚ)) :
    s.check_reshuffle σ = shuffleStep σ s := by
  simp [Shoe.check_reshuffle, h]

theorem check_reshuffle_neg (σ : List Card → List Card) (s : Shoe)
    (h : ¬ s.threshold ≤ (s.num_dealt : ℚ) / (s.max_cards : ℚ)) :
    s.check_reshuffle σ = s := by
  simp [Shoe.check_reshuffle, h]

theorem ratio_ge_iff_39 (d : Nat) : ((3 : ℚ) / 4 ≤ (d : ℚ) / 52) ↔ 39 ≤ d := by
  rw [div_le_div_iff₀ (by norm_num) (by norm_num)]
  constructor
  · intro h
    have h1 : (156 : ℚ) ≤ (d : ℚ) * 4 := by linarith
    have h2 : (156 : ℕ) ≤ d * 4 := by exact_mod_cast h1
    omega
  · intro h
    have h2 : (156 : ℕ) ≤ d * 4 := by omega
    have h1 : (156 : ℚ) ≤ (d : ℚ) * 4 := by exact_mod_cast h2
    linarith

/-- Claim C7: `Shoe.check_reshuffle` rebuilds and reshuffles the full pool
if and only if `num_dealt / max_cards ≥ depth_threshold` (the ghost shuffle
counter increases exactly when it does and the state is untouched
otherwise); for a one-deck shoe with threshold `3/4` it triggers exactly
when the cumulative dealt count is at least 39, never at 38 or fewer. -/
theorem claim_C7_check_reshuffle (σ : List Card → List Card) (s : Shoe) :
    (((s.check_reshuffle σ).nshuffles = s.nshuffles + 1) ↔
      s.threshold ≤ (s.num_dealt : ℚ) / (s.max_cards : ℚ)) ∧
    (¬ s.threshold ≤ (s.num_dealt : ℚ) / (s.max_cards : ℚ) →
      s.check_reshuffle σ = s) ∧
    (s.threshold ≤ (s.num_dealt : ℚ) / (s.max_cards : ℚ) →
      (s.check_reshuffle σ).cards = σ (fullDeck s.ndecks)) ∧
    (s.ndecks = 1 → s.threshold = 3 / 4 →
      (((s.check_reshuffle σ).nshuffles = s.nshuffles + 1) ↔
        39 ≤ s.num_dealt)) := by
  have hiff : ((s.check_reshuffle σ).nshuffles = s.nshuffles + 1) ↔
      s.threshold ≤ (s.num_dealt : ℚ) / (s.max_cards : ℚ) := by
    by_cases hc : s.threshold ≤ (s.num_dealt : ℚ) / (s.max_cards : ℚ)
    · rw [check_reshuffle_pos σ s hc]
      exact iff_of_true rfl hc
    · rw [check_reshuffle_neg σ s hc]
      exact iff_of_false (by omega) hc
  refine ⟨hiff, fun hc => check_reshuffle_neg σ s hc, ?_, ?_⟩
  · intro hc
    rw [check_reshuffle_pos σ s hc]
    rfl
  · intro h1 hθ
    rw [hiff, hθ]
    have hmax : s.max_cards = 52 := by simp [Shoe.max_cards, h1]
    rw [hmax]
    exact ratio_ge_iff_39 s.num_dealt

/-- A one-deck shoe with threshold 3/4 whose pool is exhausted (52 dealt). -/
def shoeDealtAll : Shoe := ⟨1, 3 / 4, [], 7⟩

/-- A one-deck shoe with threshold 3/4 whose pool is full (0 dealt). -/
def shoeDealtNone : Shoe := ⟨1, 3 / 4, fullDeck 1, 7⟩

/-- Witness for claim C7: with all 52 cards dealt the check rebuilds the
full pool and bumps the shuffle counter (39 ≤ 52); with nothing dealt it
leaves the shoe untouched. -/
theorem claim_C7_witness :
    (shoeDealtAll.check_reshuffle id).cards = id (fullDeck 1) ∧
    (shoeDealtAll.check_reshuffle id).nshuffles = shoeDealtAll.nshuffles + 1 ∧
    shoeDealtNone.check_reshuffle id = shoeDealtNone := by
  have hd : shoeDealtAll.num_dealt = 52 := by
    simp [shoeDealtAll, Shoe.num_dealt, Shoe.num_cards, Shoe.max_cards]
  have hcond : shoeDealtAll.threshold ≤
      (shoeDealtAll.num_dealt : ℚ) / (shoeDealtAll.max_cards : ℚ) := by
    rw [hd]
    norm_num [shoeDealtAll, Shoe.max_cards]
  have hd0 : shoeDealtNone.num_dealt = 0 := by
    simp [shoeDealtNone, Shoe.num_dealt, Shoe.num_cards, Shoe.max_cards,
      fullDeck_length]
  have hncond : ¬ shoeDealtNone.threshold ≤
      (shoeDealtNone.num_dealt : ℚ) / (shoeDealtNone.max_cards : ℚ) := by
    rw [hd0]
    norm_num [shoeDealtNone]
  refine ⟨(claim_C7_check_reshuffle id shoeDealtAll).2.2.1 hcond, ?_,
    (claim_C7_check_reshuffle id shoeDealtNone).2.1 hncond⟩
  exact ((claim_C7_check_reshuffle id shoeDealtAll).2.2.2 rfl rfl).mpr
    (by rw [hd]; norm_num)

theorem popCard_concat (s : Shoe) (l : List Card) (a : Card)
    (h : s.cards = l ++ [a]) :
    popCard s = some (a, { s with cards := l }) := by
  simp only [popCard, h, List.getLast?_concat, List.dropLast_concat]

theorem deal_one_nonempty (σ : List Card → List Card) (s : Shoe)
    (l : List Card) (a : Card) (h : s.cards = l ++ [a]) :
    s.deal_one σ = some (a, { s with cards := l }) := by
  have hlen : ¬(s.cards.length = 0) := by rw [h]; simp
  simp only [Shoe.deal_one]
  rw [if_neg hlen]
  exact popCard_concat s l a h

theorem dealN_drain (σ : List Card → List Card) :
    ∀ (k : Nat) (s : Shoe), s.cards.length = k →
      dealN σ s k = some { s with cards := ([] : List Card) } := by
  intro k
  induction k with
  | zero =>
    intro s hs
    obtain ⟨nd, th, cs, ns⟩ := s
    have h0 : cs = [] := List.length_eq_zero.mp hs
    subst h0
    rfl
  | succ k ih =>
    intro s hs
    have hne : s.cards ≠ [] := by
      intro h0
      rw [h0] at hs
      simp at hs
    have hla : s.cards = s.cards.dropLast ++ [s.cards.getLast hne] :=
      (List.dropLast_append_getLast hne).symm
    have hd := deal_one_nonempty σ s _ _ hla
    show dealN σ s (k + 1) = _
    simp only [dealN, hd]
    have hlk : ({ s with cards := s.cards.dropLast } : Shoe).cards.length = k := by
      simp [List.length_dropLast, hs]
    exact ih _ hlk

/-- Claim C6: for a fresh shoe with a positive deck count and a threshold in
[0,1], dealing exactly `max_cards` cards empties the pool without any
reshuffle (the ghost counter stays at 1), and the next `deal_one` performs
exactly one rebuild-and-reshuffle (counter 2), returns a card, and leaves
`max_cards − 1` cards.  The shuffle `σ` is arbitrary but length-preserving,
as any permutation is. -/
theorem claim_C6_shoe_exhaustion (σ : List Card → List Card)
    (hσ : ∀ l, (σ l).length = l.length) (n : Nat) (hn : 0 < n)
    (θ : ℚ) (hθ0 : 0 ≤ θ) (hθ1 : θ ≤ 1) :
    (dealN σ (Shoe.fresh σ n θ) (n * 52)).map
      (fun s => (s.num_cards, s.nshuffles)) = some (0, 1) ∧
    (dealN σ (Shoe.fresh σ n θ) (n * 52)).bind
      (fun s1 => (s1.deal_one σ).map (fun p => (p.2.num_cards, p.2.nshuffles))) =
        some (n * 52 - 1, 2) := by
  have hlen0 : (Shoe.fresh σ n θ).cards.length = n * 52 := by
    simp [Shoe.fresh, hσ, fullDeck_length]
  have h1 := dealN_drain σ (n * 52) (Shoe.fresh σ n θ) hlen0
  have hempty : ({ Shoe.fresh σ n θ with cards := ([] : List Card) } : Shoe) =
      ⟨n, θ, [], 1⟩ := rfl
  rw [hempty] at h1
  have hne52 : n * 52 ≠ 0 := by positivity
  constructor
  · rw [h1]
    rfl
  · rw [h1]
    show ((⟨n, θ, [], 1⟩ : Shoe).deal_one σ).map
      (fun p => (p.2.num_cards, p.2.nshuffles)) = some (n * 52 - 1, 2)
    have hcond : (⟨n, θ, [], 1⟩ : Shoe).threshold ≤
        (((⟨n, θ, [], 1⟩ : Shoe).num_dealt : ℚ) /
          ((⟨n, θ, [], 1⟩ : Shoe).max_cards : ℚ)) := by
      have hdealt : (⟨n, θ, [], 1⟩ : Shoe).num_dealt = n * 52 := by
        simp [Shoe.num_dealt, Shoe.num_cards, Shoe.max_cards]
      have hmaxc : (⟨n, θ, [], 1⟩ : Shoe).max_cards = n * 52 := rfl
      rw [hdealt, hmaxc, div_self (Nat.cast_ne_zero.mpr hne52)]
      exact hθ1
    have hcr : (⟨n, θ, [], 1⟩ : Shoe).check_reshuffle σ =
        shuffleStep σ ⟨n, θ, [], 1⟩ :=
      check_reshuffle_pos σ _ hcond
    have hslen : (σ (fullDeck n)).length = n * 52 := by
      rw [hσ, fullDeck_length]
    have hsne : σ (fullDeck n) ≠ [] := by
      intro h0
      rw [h0] at hslen
      simp at hslen
      omega
    have hdecomp : (shuffleStep σ (⟨n, θ, [], 1⟩ : Shoe)).cards =
        (σ (fullDeck n)).dropLast ++ [(σ (fullDeck n)).getLast hsne] :=
      (List.dropLast_append_getLast hsne).symm
    have hdeal : (⟨n, θ, [], 1⟩ : Shoe).deal_one σ =
        some ((σ (fullDeck n)).getLast hsne,
          { shuffleStep σ (⟨n, θ, [], 1⟩ : Shoe) with
              cards := (σ (fullDeck n)).dropLast }) := by
      simp only [Shoe.deal_one]
      rw [if_pos (show (⟨n, θ, [], 1⟩ : Shoe).cards.length = 0 from rfl), hcr]
      exact popCard_concat _ _ _ hdecomp
    rw [hdeal]
    show some ((σ (fullDeck n)).dropLast.length, 2) = some (n * 52 - 1, 2)
    rw [List.length_dropLast, hslen]

/-- Witness for claim C6: the identity shuffle, one deck, threshold 3/4. -/
theorem claim_C6_witness :
    (0 : Nat) < 1 ∧ (0 : ℚ) ≤ 3 / 4 ∧ (3 / 4 : ℚ) ≤ 1 ∧
    (dealN id (Shoe.fresh id 1 (3 / 4)) (1 * 52)).map
      (fun s => (s.num_cards, s.nshuffles)) = some (0, 1) ∧
    (dealN id (Shoe.fresh id 1 (3 / 4)) (1 * 52)).bind
      (fun s1 => (s1.deal_one id).map (fun p => (p.2.num_cards, p.2.nshuffles))) =
        some (1 * 52 - 1, 2) := by
  have h := claim_C6_shoe_exhaustion id (fun l => rfl) 1 (by norm_num) (3 / 4)
    (by norm_num) (by norm_num)
  exact ⟨by norm_num, by norm_num, by norm_num, h.1, h.2⟩

end Blackjack
